import Mathlib

/-!
Verification of the migration-backup orchestration implemented in
`src/main.ts` of the `github-backup-action` repository.

The TypeScript source is shallowly embedded: network calls become oracle
functions supplied as parameters (one outcome per call), the polling and
pagination `while` loops become fuel-indexed structural recursions whose
`none` / out-of-fuel result models "the loop is still running", and thrown
JavaScript errors become explicit error results carrying the interpolated
message strings built exactly as the source builds them.
-/

namespace GithubBackup

/-! ## Archive downloader (`downloadFile` in `src/main.ts`)

Each loop iteration performs `client.get(url)`, checks
`response.message.statusCode !== 200`, and streams the body with
`pipeline(response.message, writeStream)`.  Any of these can throw; the
`catch` block distinguishes errors whose `code` property is `'ECONNRESET'`.
An attempt's observable behaviour is therefore captured by one oracle value
per attempt index. -/

/-- Outcome of the `pipeline(response.message, writeStream)` stream copy,
after a response was obtained.  `connReset` is an error whose `code` is
`'ECONNRESET'` (carrying `error.message`); `ioError` is any other thrown
error. -/
inductive PipelineOutcome where
  | success
  | connReset (msg : String)
  | ioError (msg : String)
  deriving DecidableEq, Repr

/-- Observable behaviour of one attempt of the download loop body:
either `client.get` returned a response (with its status code, and the
stream outcome used in case the status check passes), or `client.get`
itself threw — with or without the `'ECONNRESET'` code. -/
inductive AttemptOutcome where
  | response (statusCode : Nat) (pipeline : PipelineOutcome)
  | getConnReset (msg : String)
  | getError (msg : String)
  deriving DecidableEq, Repr

/-- Message of the error thrown on a non-200 status:
`` `#${index} - Failed to download file: HTTP ${response.message.statusCode}` ``. -/
def httpErrorMsg (index statusCode : Nat) : String :=
  ("#" ++ toString index ++ " - Failed to download file: HTTP ") ++ toString statusCode

/-- Message of the error rethrown from the `catch` block:
`` `#${index} - Failed after ${attempt + 1} attempts: ${error.message}` ``. -/
def failedAfterMsg (index attempts : Nat) (cause : String) : String :=
  (("#" ++ toString index ++ " - Failed after ") ++ toString attempts) ++
    (" attempts: " ++ cause)

/-- Message of the trailing throw after the loop:
`` `#${index} - Exceeded maximum retries` ``. -/
def exceededMsg (index : Nat) : String :=
  "#" ++ toString index ++ " - Exceeded maximum retries"

/-- How a call to `downloadFile` ends: the `return 'complete'`, the throw
from the `catch` block (recording `attempt + 1` and the caught error's
message), or the trailing `throw` after the loop. -/
inductive DownloadResult where
  | complete
  | failedAfter (attempts : Nat) (cause : String)
  | exceededMaxRetries
  deriving DecidableEq, Repr

/-- A run of `downloadFile`, instrumented with the number of attempts whose
body started executing and the list of `setTimeout` delays (in ms) inserted
before each retry. -/
structure DownloadTrace where
  result : DownloadResult
  attemptsMade : Nat
  delays : List Nat
  deriving DecidableEq, Repr

/-- The `for (let attempt = 0; attempt <= retries; attempt++)` loop of
`downloadFile`.  `remaining` is the fuel `retries + 1 - attempt`, which
makes the recursion structural; the top-level entry point establishes that
correspondence.  A `connReset`-coded error with `attempt < retries` waits
`1000 * attempt` ms and continues; every other caught error is rethrown as
`failedAfter`.  Falling out of the loop yields `exceededMaxRetries`. -/
def downloadLoop (oracle : Nat → AttemptOutcome) (index retries : Nat) :
    Nat → Nat → List Nat → DownloadTrace
  | 0, attempt, delays => ⟨.exceededMaxRetries, attempt, delays⟩
  | remaining + 1, attempt, delays =>
    match oracle attempt with
    | .response statusCode pipeline =>
      if statusCode = 200 then
        match pipeline with
        | .success => ⟨.complete, attempt + 1, delays⟩
        | .connReset msg =>
          if attempt < retries then
            downloadLoop oracle index retries remaining (attempt + 1)
              (delays ++ [1000 * attempt])
          else ⟨.failedAfter (attempt + 1) msg, attempt + 1, delays⟩
        | .ioError msg => ⟨.failedAfter (attempt + 1) msg, attempt + 1, delays⟩
      else
        ⟨.failedAfter (attempt + 1) (httpErrorMsg index statusCode), attempt + 1, delays⟩
    | .getConnReset msg =>
      if attempt < retries then
        downloadLoop oracle index retries remaining (attempt + 1)
          (delays ++ [1000 * attempt])
      else ⟨.failedAfter (attempt + 1) msg, attempt + 1, delays⟩
    | .getError msg => ⟨.failedAfter (attempt + 1) msg, attempt + 1, delays⟩

/-- `downloadFile(url, filename, index, retries = 3)`.  The `url` and
`filename` parameters do not influence control flow (the network behaviour
is the oracle); they are kept for signature fidelity. -/
def downloadFile (oracle : Nat → AttemptOutcome) (url filename : String)
    (index : Nat) (retries : Nat := 3) : DownloadTrace :=
  downloadLoop oracle index retries (retries + 1) 0 []

/-- The message carried by the promise rejection of `downloadFile`, if it
rejects (used by `backup` as the batch's failure reason). -/
def downloadThrowMsg (index : Nat) : DownloadResult → Option String
  | .complete => none
  | .failedAfter attempts cause => some (failedAfterMsg index attempts cause)
  | .exceededMaxRetries => some (exceededMsg index)

/-- An attempt outcome that throws an error carrying the `'ECONNRESET'`
code: either `client.get` threw it, or the response was `200` and the
stream copy threw it.  (A non-200 response throws the plain status-check
`Error`, which has no `code` property, before the stream runs.) -/
def IsTransient (o : AttemptOutcome) : Prop :=
  (∃ msg, o = .getConnReset msg) ∨ ∃ msg, o = .response 200 (.connReset msg)

/-! ### Lemmas about the download loop -/

theorem string_append_assoc (a b c : String) : (a ++ b) ++ c = a ++ (b ++ c) := by
  cases a with | mk x =>
  cases b with | mk y =>
  cases c with | mk z =>
  show String.mk ((x ++ y) ++ z) = String.mk (x ++ (y ++ z))
  rw [List.append_assoc]

/-- Invariant: started with `attempt ≤ retries` and exact fuel, the loop
never reaches the trailing throw. -/
theorem downloadLoop_ne_exceeded (oracle : Nat → AttemptOutcome) (index retries : Nat) :
    ∀ remaining attempt delays, attempt + remaining = retries + 1 → attempt ≤ retries →
      (downloadLoop oracle index retries remaining attempt delays).result ≠
        .exceededMaxRetries := by
  intro remaining
  induction remaining with
  | zero => intro attempt delays hsum hle; omega
  | succ n ih =>
    intro attempt delays hsum hle
    unfold downloadLoop
    cases h : oracle attempt with
    | response sc pl =>
      by_cases hsc : sc = 200
      · subst hsc
        simp only [if_pos rfl]
        cases pl with
        | success => simp
        | connReset msg =>
          by_cases hlt : attempt < retries
          · simp only [if_pos hlt]
            exact ih (attempt + 1) _ (by omega) (by omega)
          · simp [hlt]
        | ioError msg => simp
      · simp [hsc]
    | getConnReset msg =>
      by_cases hlt : attempt < retries
      · simp only [if_pos hlt]
        exact ih (attempt + 1) _ (by omega) (by omega)
      · simp [hlt]
    | getError msg => simp

/-- Delays accumulate as `1000 * k` for consecutive attempt indices `k`
starting at the loop's entry attempt. -/
theorem downloadLoop_delays (oracle : Nat → AttemptOutcome) (index retries : Nat) :
    ∀ remaining attempt delays, ∃ j,
      (downloadLoop oracle index retries remaining attempt delays).delays =
        delays ++ (List.range' attempt j).map (fun k => 1000 * k) := by
  intro remaining
  induction remaining with
  | zero => intro attempt delays; exact ⟨0, by simp [downloadLoop]⟩
  | succ n ih =>
    intro attempt delays
    unfold downloadLoop
    cases h : oracle attempt with
    | response sc pl =>
      by_cases hsc : sc = 200
      · subst hsc
        simp only [if_pos rfl]
        cases pl with
        | success => exact ⟨0, by simp⟩
        | connReset msg =>
          by_cases hlt : attempt < retries
          · simp only [if_pos hlt]
            obtain ⟨j, hj⟩ := ih (attempt + 1) (delays ++ [1000 * attempt])
            exact ⟨j + 1, by simp [hj, List.range'_succ]⟩
          · exact ⟨0, by simp [hlt]⟩
        | ioError msg => exact ⟨0, by simp⟩
      · exact ⟨0, by simp [hsc]⟩
    | getConnReset msg =>
      by_cases hlt : attempt < retries
      · simp only [if_pos hlt]
        obtain ⟨j, hj⟩ := ih (attempt + 1) (delays ++ [1000 * attempt])
        exact ⟨j + 1, by simp [hj, List.range'_succ]⟩
      · exact ⟨0, by simp [hlt]⟩
    | getError msg => exact ⟨0, by simp⟩

/-- C9: the trailing `throw new Error('Exceeded maximum retries')` after the
`for` loop is dead code — for every oracle, url, filename, index and retry
budget, `downloadFile` either completes or fails from inside the loop, never
with the `exceededMaxRetries` result. -/
theorem downloadFile_exceeded_unreachable (oracle : Nat → AttemptOutcome)
    (url filename : String) (index retries : Nat) :
    (downloadFile oracle url filename index retries).result ≠ .exceededMaxRetries :=
  downloadLoop_ne_exceeded oracle index retries (retries + 1) 0 [] (by omega) (by omega)

/-- C7: the delay before the `(k+1)`-st attempt (i.e. after the failed
attempt of index `k`) is exactly `1000 * k` ms, so the recorded delay list
is `[1000*0, 1000*1, …]` and is strictly increasing. -/
theorem downloadFile_delays_linear (oracle : Nat → AttemptOutcome)
    (url filename : String) (index retries : Nat) :
    ∃ j, (downloadFile oracle url filename index retries).delays =
        (List.range j).map (fun k => 1000 * k) ∧
      (downloadFile oracle url filename index retries).delays.Pairwise (· < ·) := by
  obtain ⟨j, hj⟩ := downloadLoop_delays oracle index retries (retries + 1) 0 []
  refine ⟨j, ?_, ?_⟩
  · simpa [downloadFile, List.range_eq_range'] using hj
  · have h2 : (downloadFile oracle url filename index retries).delays =
        (List.range j).map (fun k => 1000 * k) := by
      simpa [downloadFile, List.range_eq_range'] using hj
    rw [h2]
    exact (List.pairwise_lt_range j).map _ (fun a b hab => by omega)

/-- C6: a non-200 HTTP status on the first attempt fails immediately: one
attempt is made, no retry delay is inserted, the thrown error is the wrapped
status-check error, and its message names the status code. -/
theorem downloadFile_http_error_immediate (oracle : Nat → AttemptOutcome)
    (url filename : String) (index retries statusCode : Nat) (pl : PipelineOutcome)
    (h0 : oracle 0 = .response statusCode pl) (hsc : statusCode ≠ 200) :
    downloadFile oracle url filename index retries =
      ⟨.failedAfter 1 (httpErrorMsg index statusCode), 1, []⟩ ∧
    downloadThrowMsg index (downloadFile oracle url filename index retries).result =
      some (failedAfterMsg index 1 (httpErrorMsg index statusCode)) ∧
    ∃ pre, failedAfterMsg index 1 (httpErrorMsg index statusCode) =
      pre ++ toString statusCode := by
  have hmain : downloadFile oracle url filename index retries =
      ⟨.failedAfter 1 (httpErrorMsg index statusCode), 1, []⟩ := by
    unfold downloadFile downloadLoop
    simp [h0, hsc]
  refine ⟨hmain, by rw [hmain]; rfl, ?_⟩
  refine ⟨(("#" ++ toString index ++ " - Failed after ") ++ toString 1) ++
    (" attempts: " ++ ("#" ++ toString index ++ " - Failed to download file: HTTP ")), ?_⟩
  simp only [failedAfterMsg, httpErrorMsg, string_append_assoc]

/-- If every attempt from `attempt` up to (excluding) `retries` is transient
and attempt `retries` succeeds, the loop completes with `retries + 1`
attempts, the delays covering attempt indices `attempt, …, retries - 1`. -/
theorem downloadLoop_transient_then_success (oracle : Nat → AttemptOutcome)
    (index retries : Nat)
    (htr : ∀ k, k < retries → IsTransient (oracle k))
    (hok : oracle retries = .response 200 .success) :
    ∀ remaining attempt delays, attempt + remaining = retries + 1 → attempt ≤ retries →
      downloadLoop oracle index retries remaining attempt delays =
        ⟨.complete, retries + 1,
          delays ++ (List.range' attempt (retries - attempt)).map (fun k => 1000 * k)⟩ := by
  intro remaining
  induction remaining with
  | zero => intro attempt delays hsum hle; exact absurd hsum (by omega)
  | succ n ih =>
    intro attempt delays hsum hle
    rcases Nat.lt_or_ge attempt retries with hlt | hge
    · have htrans := htr attempt hlt
      have hstep : downloadLoop oracle index retries (n + 1) attempt delays =
          downloadLoop oracle index retries n (attempt + 1) (delays ++ [1000 * attempt]) := by
        unfold downloadLoop
        rcases htrans with ⟨msg, hmsg⟩ | ⟨msg, hmsg⟩
        all_goals simp [hmsg, hlt]
        all_goals cases n
        all_goals rfl
      rw [hstep, ih (attempt + 1) (delays ++ [1000 * attempt]) (by omega) (by omega)]
      have hr : retries - attempt = (retries - (attempt + 1)) + 1 := by omega
      simp [hr, List.range'_succ]
    · have hattempt : attempt = retries := by omega
      rw [hattempt]
      unfold downloadLoop
      simp [hok, Nat.sub_self]

/-- If every attempt from `attempt` through `retries` is transient, the loop
exhausts its budget and throws `failedAfter (retries + 1)`. -/
theorem downloadLoop_all_transient (oracle : Nat → AttemptOutcome)
    (index retries : Nat)
    (htr : ∀ k, k ≤ retries → IsTransient (oracle k)) :
    ∀ remaining attempt delays, attempt + remaining = retries + 1 → attempt ≤ retries →
      ∃ cause, downloadLoop oracle index retries remaining attempt delays =
        ⟨.failedAfter (retries + 1) cause, retries + 1,
          delays ++ (List.range' attempt (retries - attempt)).map (fun k => 1000 * k)⟩ := by
  intro remaining
  induction remaining with
  | zero => intro attempt delays hsum hle; exact absurd hsum (by omega)
  | succ n ih =>
    intro attempt delays hsum hle
    rcases Nat.lt_or_ge attempt retries with hlt | hge
    · have hstep : downloadLoop oracle index retries (n + 1) attempt delays =
          downloadLoop oracle index retries n (attempt + 1) (delays ++ [1000 * attempt]) := by
        unfold downloadLoop
        rcases htr attempt (by omega) with ⟨msg, hmsg⟩ | ⟨msg, hmsg⟩
        all_goals simp [hmsg, hlt]
        all_goals cases n
        all_goals rfl
      obtain ⟨cause, hcause⟩ := ih (attempt + 1) (delays ++ [1000 * attempt]) (by omega) (by omega)
      refine ⟨cause, ?_⟩
      rw [hstep, hcause]
      have hr : retries - attempt = (retries - (attempt + 1)) + 1 := by omega
      simp [hr, List.range'_succ]
    · have hattempt : attempt = retries := by omega
      rw [hattempt]
      rcases htr retries (Nat.le_refl _) with ⟨msg, hmsg⟩ | ⟨msg, hmsg⟩
      all_goals refine ⟨msg, ?_⟩
      all_goals unfold downloadLoop
      all_goals simp [hmsg, Nat.sub_self]

/-- C4: with retry budget `retries` (default 3), exactly `retries` transient
connection-reset failures followed by a success make `downloadFile` succeed
after exactly `retries + 1` attempts; `retries + 1` consecutive transient
failures make it fail with the exhaustion error, whose message names the
number of attempts made. -/
theorem downloadFile_retry_budget (oracle : Nat → AttemptOutcome)
    (url filename : String) (index retries : Nat) :
    ((∀ k, k < retries → IsTransient (oracle k)) →
      oracle retries = .response 200 .success →
      (downloadFile oracle url filename index retries).result = .complete ∧
      (downloadFile oracle url filename index retries).attemptsMade = retries + 1) ∧
    ((∀ k, k ≤ retries → IsTransient (oracle k)) →
      ∃ cause,
        (downloadFile oracle url filename index retries).result =
          .failedAfter (retries + 1) cause ∧
        (downloadFile oracle url filename index retries).attemptsMade = retries + 1 ∧
        ∃ pre post,
          downloadThrowMsg index (downloadFile oracle url filename index retries).result =
            some ((pre ++ toString (retries + 1)) ++ post)) := by
  constructor
  · intro htr hok
    have h := downloadLoop_transient_then_success oracle index retries htr hok
      (retries + 1) 0 [] (by omega) (by omega)
    rw [downloadFile, h]
    exact ⟨rfl, rfl⟩
  · intro htr
    obtain ⟨cause, hcause⟩ := downloadLoop_all_transient oracle index retries htr
      (retries + 1) 0 [] (by omega) (by omega)
    refine ⟨cause, ?_, ?_, ?_⟩
    · rw [downloadFile, hcause]
    · rw [downloadFile, hcause]
    · rw [downloadFile, hcause]
      exact ⟨"#" ++ toString index ++ " - Failed after ", " attempts: " ++ cause, rfl⟩

/-- Closed witness for C4: with budget 3, three connection resets then a
success complete in 4 attempts; four connection resets fail after 4
attempts. -/
theorem downloadFile_retry_budget_witness :
    ((downloadFile (fun k => if k < 3 then .getConnReset "reset" else .response 200 .success)
        "u" "f" 0 3).result = .complete ∧
      (downloadFile (fun k => if k < 3 then .getConnReset "reset" else .response 200 .success)
        "u" "f" 0 3).attemptsMade = 4) ∧
    ∃ cause,
      (downloadFile (fun _ => .getConnReset "reset") "u" "f" 0 3).result =
        .failedAfter 4 cause ∧
      (downloadFile (fun _ => .getConnReset "reset") "u" "f" 0 3).attemptsMade = 4 ∧
      ∃ pre post,
        downloadThrowMsg 0 (downloadFile (fun _ => .getConnReset "reset") "u" "f" 0 3).result =
          some ((pre ++ toString 4) ++ post) :=
  ⟨(downloadFile_retry_budget (fun k => if k < 3 then .getConnReset "reset"
        else .response 200 .success) "u" "f" 0 3).1
      (fun k hk => Or.inl ⟨"reset", by simp [hk]⟩) (by decide),
    (downloadFile_retry_budget (fun _ => .getConnReset "reset") "u" "f" 0 3).2
      (fun k _ => Or.inl ⟨"reset", rfl⟩)⟩

/-- Closed witness for C6: a 404 on the first attempt fails after exactly one
attempt with no delays, and the message ends in "404". -/
theorem downloadFile_http_error_immediate_witness :
    (fun _ => AttemptOutcome.response 404 .success) 0 =
        AttemptOutcome.response 404 .success ∧ (404 : Nat) ≠ 200 ∧
    downloadFile (fun _ => AttemptOutcome.response 404 .success) "u" "f" 0 3 =
      ⟨.failedAfter 1 (httpErrorMsg 0 404), 1, []⟩ :=
  ⟨rfl, by decide,
    (downloadFile_http_error_immediate (fun _ => AttemptOutcome.response 404 .success)
      "u" "f" 0 3 404 .success rfl (by decide)).1⟩

/-! ## Repository lister (`getOrganisationRepositories` in `src/main.ts`)

The provider's paged `repos.listForOrg` endpoint becomes a page oracle
`pages : Nat → List String` (page number, starting from 1, to the page's
repository full names).  The `while (fetchMore)` loop becomes a
fuel-indexed recursion; `none` models a loop still running after `fuel`
fetches.  Besides the accumulated `repoNames`, the model records how many
page fetches were performed. -/

/-- Body of the `while (fetchMore)` loop: fetch `pages page`, push the
page's names when the page is non-empty, and continue exactly when the page
held at least `per_page` items. -/
def getOrgReposAux (pages : Nat → List String) (per_page : Nat) :
    Nat → Nat → List (List String) → Nat → Option (List (List String) × Nat)
  | 0, _, _, _ => none
  | fuel + 1, page, repoNames, fetched =>
    let repos := pages page
    let repoNames' := if repos.length > 0 then repoNames ++ [repos] else repoNames
    if per_page ≤ repos.length then
      getOrgReposAux pages per_page fuel (page + 1) repoNames' (fetched + 1)
    else some (repoNames', fetched + 1)

/-- `getOrganisationRepositories(org, per_page)`: run the pagination loop
from `page = 1` with an empty accumulator. -/
def getOrganisationRepositories (pages : Nat → List String) (per_page fuel : Nat) :
    Option (List (List String) × Nat) :=
  getOrgReposAux pages per_page fuel 1 [] 0

/-- A provider whose pages present the stably sorted repository list `repos`
in order, `per_page` at a time: page `p` (1-based) holds the `p`-th slice. -/
def idealPages (repos : List String) (per_page page : Nat) : List String :=
  (repos.drop ((page - 1) * per_page)).take per_page

/-- Fuel-driven chunking of a list into consecutive slices of `n` (the fuel
is bounded by the list length, which shrinks by at least one per chunk). -/
def chunksOfFuel (n : Nat) : Nat → List String → List (List String)
  | 0, _ => []
  | _ + 1, [] => []
  | fuel + 1, x :: xs => (x :: xs.take (n - 1)) :: chunksOfFuel n fuel (xs.drop (n - 1))

/-- Partition `l` into consecutive chunks of size `n` (the last possibly
shorter). -/
def chunksOf (n : Nat) (l : List String) : List (List String) :=
  chunksOfFuel n l.length l

/-! ### Lemmas about chunking and the pagination loop -/

theorem chunksOfFuel_of_le (n : Nat) :
    ∀ fuel (l : List String), l.length ≤ fuel → chunksOfFuel n fuel l = chunksOf n l := by
  intro fuel
  induction fuel using Nat.strong_induction_on with
  | _ fuel ih =>
    intro l hl
    match fuel, l with
    | 0, l =>
      have : l = [] := List.length_eq_zero.mp (by omega)
      subst this
      rfl
    | fuel + 1, [] => rfl
    | fuel + 1, x :: xs =>
      have hxs : xs.length ≤ fuel := by simpa using hl
      have hdrop : (xs.drop (n - 1)).length ≤ xs.length := by
        simp [List.length_drop]
      calc chunksOfFuel n (fuel + 1) (x :: xs)
          = (x :: xs.take (n - 1)) :: chunksOfFuel n fuel (xs.drop (n - 1)) := rfl
        _ = (x :: xs.take (n - 1)) :: chunksOf n (xs.drop (n - 1)) := by
            rw [ih fuel (by omega) _ (by omega)]
        _ = (x :: xs.take (n - 1)) :: chunksOfFuel n xs.length (xs.drop (n - 1)) := by
            rw [ih xs.length (by omega) _ (by omega)]
        _ = chunksOfFuel n (xs.length + 1) (x :: xs) := rfl
        _ = chunksOf n (x :: xs) := by simp [chunksOf]

theorem chunksOf_cons (n : Nat) (x : String) (xs : List String) :
    chunksOf n (x :: xs) = (x :: xs.take (n - 1)) :: chunksOf n (xs.drop (n - 1)) := by
  show chunksOfFuel n (xs.length + 1) (x :: xs) = _
  show (x :: xs.take (n - 1)) :: chunksOfFuel n xs.length (xs.drop (n - 1)) = _
  rw [chunksOfFuel_of_le n xs.length _ (by simp [List.length_drop])]

/-- For a non-empty list and positive `n`, the first chunk is `l.take n`
and the rest chunks `l.drop n`. -/
theorem chunksOf_eq_take_drop (n : Nat) (hn : 0 < n) (l : List String) (hl : l ≠ []) :
    chunksOf n l = l.take n :: chunksOf n (l.drop n) := by
  obtain ⟨m, rfl⟩ : ∃ m, n = m + 1 := ⟨n - 1, by omega⟩
  cases l with
  | nil => exact absurd rfl hl
  | cons x xs =>
    rw [chunksOf_cons]
    simp

theorem chunksOf_join_aux (n : Nat) :
    ∀ len (l : List String), l.length ≤ len → (chunksOf n l).flatten = l := by
  intro len
  induction len with
  | zero =>
    intro l hl
    have : l = [] := List.length_eq_zero.mp (by omega)
    subst this
    rfl
  | succ len ih =>
    intro l hl
    cases l with
    | nil => rfl
    | cons x xs =>
      rw [chunksOf_cons]
      have hdrop : (xs.drop (n - 1)).length ≤ len := by
        simp only [List.length_drop]
        simp only [List.length_cons] at hl
        omega
      simp only [List.flatten_cons]
      rw [ih _ hdrop]
      simp [List.take_append_drop]

theorem chunksOf_join (n : Nat) (l : List String) : (chunksOf n l).flatten = l :=
  chunksOf_join_aux n l.length l (Nat.le_refl _)

theorem chunksOf_sizes_aux (n : Nat) (hn : 0 < n) :
    ∀ len (l : List String), l.length ≤ len →
      ∀ b ∈ chunksOf n l, b.length ≤ n ∧ b ≠ [] := by
  intro len
  induction len with
  | zero =>
    intro l hl b hb
    have : l = [] := List.length_eq_zero.mp (by omega)
    subst this
    simp [chunksOf, chunksOfFuel] at hb
  | succ len ih =>
    intro l hl
    cases l with
    | nil => intro b hb; simp [chunksOf, chunksOfFuel] at hb
    | cons x xs =>
      rw [chunksOf_cons]
      intro b hb
      rcases List.mem_cons.mp hb with rfl | hb
      · refine ⟨?_, by simp⟩
        have : (xs.take (n - 1)).length ≤ n - 1 := by
          simp [List.length_take]
        simp only [List.length_cons]
        omega
      · have hdrop : (xs.drop (n - 1)).length ≤ len := by
          simp only [List.length_drop]
          simp only [List.length_cons] at hl
          omega
        exact ih _ hdrop b hb

theorem chunksOf_sizes (n : Nat) (hn : 0 < n) (l : List String) :
    ∀ b ∈ chunksOf n l, b.length ≤ n ∧ b ≠ [] :=
  chunksOf_sizes_aux n hn l.length l (Nat.le_refl _)

theorem chunksOf_length_aux (n : Nat) (hn : 0 < n) :
    ∀ len (l : List String), l.length ≤ len →
      (chunksOf n l).length = (l.length + n - 1) / n := by
  intro len
  induction len with
  | zero =>
    intro l hl
    have : l = [] := List.length_eq_zero.mp (by omega)
    subst this
    simp [chunksOf, chunksOfFuel, Nat.div_eq_of_lt (by omega : n - 1 < n)]
  | succ len ih =>
    intro l hl
    cases l with
    | nil => simp [chunksOf, chunksOfFuel, Nat.div_eq_of_lt (by omega : n - 1 < n)]
    | cons x xs =>
      rw [chunksOf_cons]
      have hdrop : (xs.drop (n - 1)).length ≤ len := by
        simp only [List.length_drop]
        simp only [List.length_cons] at hl
        omega
      simp only [List.length_cons]
      rw [ih _ hdrop]
      simp only [List.length_drop]
      have hx : xs.length + 1 + n - 1 = xs.length + n := by omega
      rw [hx, Nat.add_div_right _ hn]
      rcases Nat.lt_or_ge xs.length (n - 1) with hcase | hcase
      · have h1 : xs.length - (n - 1) = 0 := by omega
        have h2 : xs.length / n = 0 := Nat.div_eq_of_lt (by omega)
        rw [h1, h2]
        have h3 : (n - 1) / n = 0 := Nat.div_eq_of_lt (by omega)
        simp [h3]
      · have h1 : xs.length - (n - 1) + n - 1 = xs.length := by omega
        rw [h1]

theorem chunksOf_length (n : Nat) (hn : 0 < n) (l : List String) :
    (chunksOf n l).length = (l.length + n - 1) / n :=
  chunksOf_length_aux n hn l.length l (Nat.le_refl _)

/-- One unfolding of the pagination loop body. -/
theorem getOrgReposAux_succ (pages : Nat → List String) (per_page fuel page : Nat)
    (acc : List (List String)) (cnt : Nat) :
    getOrgReposAux pages per_page (fuel + 1) page acc cnt =
      if per_page ≤ (pages page).length then
        getOrgReposAux pages per_page fuel (page + 1)
          (if (pages page).length > 0 then acc ++ [pages page] else acc) (cnt + 1)
      else some (if (pages page).length > 0 then acc ++ [pages page] else acc, cnt + 1) :=
  rfl

/-- Running the pagination loop against the ideal paged provider from page
`p` with enough fuel returns the accumulated batches extended by the chunks
of the not-yet-listed suffix, counting one fetch per full page plus the
final short page. -/
theorem getOrgReposAux_ideal (repos : List String) (N : Nat) (hN : 0 < N) :
    ∀ fuel page acc cnt, 1 ≤ page →
      (repos.drop ((page - 1) * N)).length / N + 1 ≤ fuel →
      getOrgReposAux (idealPages repos N) N fuel page acc cnt =
        some (acc ++ chunksOf N (repos.drop ((page - 1) * N)),
          cnt + ((repos.drop ((page - 1) * N)).length / N + 1)) := by
  intro fuel
  induction fuel with
  | zero =>
    intro page acc cnt hpage hfuel
    exact absurd hfuel (Nat.not_succ_le_zero _)
  | succ fuel ih =>
    intro page acc cnt hpage hfuel
    obtain ⟨p, rfl⟩ : ∃ p, page = p + 1 := ⟨page - 1, by omega⟩
    have hp1 : p + 1 - 1 = p := rfl
    have hpages : idealPages repos N (p + 1) =
        (repos.drop (p * N)).take N := by
      simp [idealPages]
    rw [getOrgReposAux_succ, hpages, hp1]
    rw [hp1] at hfuel
    cases hremc : repos.drop (p * N) with
    | nil =>
      rw [hremc] at hfuel
      have hN0 : ¬ N ≤ (0 : Nat) := by omega
      simp [chunksOf, chunksOfFuel, hN0]
    | cons x xs =>
      rw [hremc] at hfuel
      have hne : x :: xs ≠ ([] : List String) := by simp
      have hpos : ((x :: xs).take N).length > 0 := by
        simp [List.length_take]
        omega
      rw [if_pos hpos]
      rcases le_or_lt N (x :: xs).length with hge | hlt
      · -- full page: the loop continues
        have hcond : N ≤ ((x :: xs).take N).length := by
          simp only [List.length_take]
          omega
        rw [if_pos hcond]
        have hnext : repos.drop ((p + 1 + 1 - 1) * N) = (x :: xs).drop N := by
          rw [← hremc, List.drop_drop]
          have harith : (p + 1 + 1 - 1) * N = p * N + N := Nat.succ_mul p N
          rw [harith]
        have hdiv : (x :: xs).length / N =
            ((x :: xs).length - N) / N + 1 := Nat.div_eq_sub_div hN hge
        have hfuel2 : (repos.drop ((p + 1 + 1 - 1) * N)).length / N + 1 ≤ fuel := by
          rw [hnext, List.length_drop]
          have hle2 : (x :: xs).length / N ≤ fuel := Nat.le_of_succ_le_succ hfuel
          rw [hdiv] at hle2
          exact hle2
        rw [ih (p + 1 + 1) (acc ++ [(x :: xs).take N]) (cnt + 1) (by omega) hfuel2]
        rw [hnext]
        rw [chunksOf_eq_take_drop N hN _ hne]
        congr 1
        congr 1
        · simp
        · rw [List.length_drop, hdiv]
          generalize ((x :: xs).length - N) / N = Y
          omega
      · -- short page: the loop stops here
        have htake : (x :: xs).take N = x :: xs :=
          List.take_of_length_le (Nat.le_of_lt hlt)
        have hcond : ¬ N ≤ ((x :: xs).take N).length := by
          rw [htake]
          omega
        rw [if_neg hcond, htake]
        have hdropnil : (x :: xs).drop N = ([] : List String) :=
          List.drop_of_length_le (Nat.le_of_lt hlt)
        rw [chunksOf_eq_take_drop N hN _ hne, htake, hdropnil]
        have hdiv0 : (x :: xs).length / N = 0 := Nat.div_eq_of_lt hlt
        rw [hdiv0]
        simp [chunksOf, chunksOfFuel]

/-- C3: against an ideal provider presenting the stably sorted repository
list `repos` paged `N` at a time (`N > 0`), the lister returns exactly the
consecutive chunks of `repos`: `⌈R/N⌉` batches, each of size at most `N`
and non-empty, jointly covering every repository exactly once in order, and
it performs exactly `R / N + 1` page fetches — stopping as soon as a page
returns fewer than `N` items (or an empty page). -/
theorem getOrganisationRepositories_partitions (repos : List String) (N fuel : Nat)
    (hN : 0 < N) (hfuel : repos.length / N + 1 ≤ fuel) :
    getOrganisationRepositories (idealPages repos N) N fuel =
      some (chunksOf N repos, repos.length / N + 1) ∧
    (chunksOf N repos).length = (repos.length + N - 1) / N ∧
    (∀ b ∈ chunksOf N repos, b.length ≤ N ∧ b ≠ []) ∧
    (chunksOf N repos).flatten = repos := by
  refine ⟨?_, chunksOf_length N hN repos, chunksOf_sizes N hN repos, chunksOf_join N repos⟩
  have h := getOrgReposAux_ideal repos N hN fuel 1 [] 0 (Nat.le_refl 1)
    (by simpa using hfuel)
  rw [getOrganisationRepositories, h]
  simp

/-- Closed witness for C3, the spec's own example: `N = 2` over
`[a, b, c, d, e]` produces `[[a, b], [c, d], [e]]` in 3 fetches. -/
theorem getOrganisationRepositories_partitions_witness :
    (0 : Nat) < 2 ∧
    (["a", "b", "c", "d", "e"] : List String).length / 2 + 1 ≤ 10 ∧
    getOrganisationRepositories (idealPages ["a", "b", "c", "d", "e"] 2) 2 10 =
      some ([["a", "b"], ["c", "d"], ["e"]], 3) :=
  ⟨by decide, by decide,
    ((getOrganisationRepositories_partitions ["a", "b", "c", "d", "e"] 2 10 (by decide)
        (by decide)).1).trans (by decide)⟩

/-- As the loop runs, the accumulator only ever gains non-empty pages: the
`if (repos.data.length > 0)` guard keeps empty pages out of `repoNames`. -/
theorem getOrgReposAux_batches_nonempty (pages : Nat → List String) (per_page : Nat) :
    ∀ fuel page acc cnt batches fetched,
      (∀ b ∈ acc, b ≠ []) →
      getOrgReposAux pages per_page fuel page acc cnt = some (batches, fetched) →
      ∀ b ∈ batches, b ≠ [] := by
  intro fuel
  induction fuel with
  | zero =>
    intro page acc cnt batches fetched hacc h
    simp [getOrgReposAux] at h
  | succ fuel ih =>
    intro page acc cnt batches fetched hacc h
    rw [getOrgReposAux_succ] at h
    have hacc2ne :
        ∀ b ∈ (if (pages page).length > 0 then acc ++ [pages page] else acc), b ≠ [] := by
      by_cases hp : (pages page).length > 0
      · rw [if_pos hp]
        intro b hb
        rcases List.mem_append.mp hb with hb | hb
        · exact hacc b hb
        · have hbp : b = pages page := by simpa using hb
          rw [hbp]
          exact List.length_pos.mp hp
      · rw [if_neg hp]
        exact hacc
    by_cases hcond : per_page ≤ (pages page).length
    · rw [if_pos hcond] at h
      exact ih (page + 1) _ (cnt + 1) batches fetched hacc2ne h
    · rw [if_neg hcond] at h
      obtain ⟨h1, h2⟩ :
          (if (pages page).length > 0 then acc ++ [pages page] else acc) = batches ∧
            cnt + 1 = fetched := by
        simpa using h
      exact h1 ▸ hacc2ne

/-- C10: every batch the lister emits is non-empty, for every page oracle —
pages with zero repositories are filtered out and never become batches. -/
theorem getOrganisationRepositories_batches_nonempty (pages : Nat → List String)
    (per_page fuel : Nat) (batches : List (List String)) (fetched : Nat)
    (h : getOrganisationRepositories pages per_page fuel = some (batches, fetched)) :
    ∀ b ∈ batches, b ≠ [] :=
  getOrgReposAux_batches_nonempty pages per_page fuel 1 [] 0 batches fetched
    (by intro b hb; simp at hb) h

/-- Closed witness for C10: a provider with one single-repository page (its
page 2 is empty and is not emitted); the produced batch is non-empty. -/
theorem getOrganisationRepositories_batches_nonempty_witness :
    getOrganisationRepositories (fun p => if p = 1 then ["x"] else []) 2 5 =
      some ([["x"]], 1) ∧ (["x"] : List String) ≠ [] :=
  ⟨by decide,
    getOrganisationRepositories_batches_nonempty
      (fun p => if p = 1 then ["x"] else []) 2 5 [["x"]] 1 (by decide) ["x"] (by decide)⟩

deriving instance DecidableEq for Except

/-! ## Migration polling (`backup`'s do/while loop in `src/main.ts`)

`getStatusForOrg` becomes a status oracle `Nat → Except String String`
(poll number to either a thrown request error or the reported `state`
string).  The `do { sleep; poll } while (state !== 'exported')` loop
becomes a fuel recursion: `outOfFuel` models a loop that is still polling
after `fuel` polls. -/

/-- How the polling loop ends within the given fuel: the state reached
`'exported'` (after `polls` polls), a status request threw (after `polls`
polls, aborting the batch), or fuel ran out with the loop still going. -/
inductive AwaitResult where
  | exported (polls : Nat)
  | statusError (msg : String) (polls : Nat)
  | outOfFuel (polls : Nat)
  deriving DecidableEq, Repr

/-- The do/while polling loop, `polls` polls already performed. -/
def awaitExportAux (status : Nat → Except String String) : Nat → Nat → AwaitResult
  | 0, polls => .outOfFuel polls
  | fuel + 1, polls =>
    match status polls with
    | .error msg => .statusError msg (polls + 1)
    | .ok state =>
      if state = "exported" then .exported (polls + 1)
      else awaitExportAux status fuel (polls + 1)

/-- The full polling phase of `backup`, started before any poll. -/
def awaitExport (status : Nat → Except String String) (fuel : Nat) : AwaitResult :=
  awaitExportAux status fuel 0

/-! ## Migration driver (`backup` in `src/main.ts`) -/

/-- The provider-call behaviour seen by one `backup` invocation:
`startForOrg` (error or migration id), the status oracle for the polling
loop, `downloadArchiveForOrg` (error or archive url), the per-attempt
download oracle, and `deleteArchiveForOrg`. -/
structure BackupEnv where
  start : Except String Nat
  status : Nat → Except String String
  archiveUrl : Except String String
  download : Nat → AttemptOutcome
  deleteArchive : Except String Unit

/-- `` `${directory}/github_${githubOrganization}_${index}_${new Date().toJSON()}.tar.gz` `` -/
def backupFilename (directory organization : String) (index : Nat) (timestamp : String) :
    String :=
  directory ++ "/github_" ++ organization ++ "_" ++ toString index ++ "_" ++ timestamp ++
    ".tar.gz"

/-- One `backup(org, repositories, directory, index)` invocation:
`some (.ok filename)` models the fulfilled promise, `some (.error msg)` the
rejected promise (the await chain rethrows the first error — note there is
no try/catch around `deleteArchiveForOrg`), and `none` a promise that has
not settled within `fuel` polls (the loop is still polling). -/
def backup (env : BackupEnv) (organization directory : String) (index : Nat)
    (timestamp : String) (fuel : Nat) : Option (Except String String) :=
  let filename := backupFilename directory organization index timestamp
  match env.start with
  | .error msg => some (.error msg)
  | .ok _ =>
    match awaitExport env.status fuel with
    | .outOfFuel _ => none
    | .statusError msg _ => some (.error msg)
    | .exported _ =>
      match env.archiveUrl with
      | .error msg => some (.error msg)
      | .ok url =>
        match downloadThrowMsg index (downloadFile env.download url filename index).result with
        | some msg => some (.error msg)
        | none =>
          match env.deleteArchive with
          | .error msg => some (.error msg)
          | .ok _ => some (.ok filename)

/-! ## Batch coordinator (`run` in `src/main.ts`) -/

/-- `repoNames.map((repositories, index) => backup(...))`: one backup
promise per batch, indexed in order. -/
def runBackups (organization directory : String) (timestamps : Nat → String) (fuel : Nat) :
    List BackupEnv → Nat → List (Option (Except String String))
  | [], _ => []
  | env :: rest, index =>
    backup env organization directory index (timestamps index) fuel ::
      runBackups organization directory timestamps fuel rest (index + 1)

/-- `Promise.allSettled`: available only once every batch has settled. -/
def collectSettled : List (Option (Except String String)) → Option (List (Except String String))
  | [] => some []
  | none :: _ => none
  | some r :: rest => (collectSettled rest).map (fun l => r :: l)

/-- The result-collection loop of `run`: fulfilled values pushed to
`backupFiles` in order, each rejection counted in `failures`. -/
def aggregateResults : List (Except String String) → List String × Nat
  | [] => ([], 0)
  | .ok f :: rest =>
    let p := aggregateResults rest
    (f :: p.1, p.2)
  | .error _ :: rest =>
    let p := aggregateResults rest
    (p.1, p.2 + 1)

/-- Observable outcome of `run`: the `backupFiles` and `backupDirectory`
outputs, the failure count, and whether `setFailed` (rather than the
all-completed info message) was emitted. -/
structure RunResult where
  backupFiles : List String
  backupDirectory : String
  failures : Nat
  failed : Bool
  deriving DecidableEq, Repr

/-- The coordinator `run` for a given list of per-batch environments:
waits for every batch to settle (`none` while any is still polling), then
aggregates; `setFailed` fires exactly when `failures > 0`. -/
def run (envs : List BackupEnv) (organization directory : String)
    (timestamps : Nat → String) (fuel : Nat) : Option RunResult :=
  match collectSettled (runBackups organization directory timestamps fuel envs 0) with
  | none => none
  | some results =>
    let p := aggregateResults results
    some ⟨p.1, directory, p.2, decide (p.2 > 0)⟩

/-- The batch-selection prologue of `run`:
`if (githubRepository && githubRepository !== '')` push a single
one-repository batch, else call `getOrganisationRepositories`.  The `Bool`
records whether the listing call was invoked. -/
def selectBatches (githubRepository : String) (pages : Nat → List String)
    (repositoriesPerJob fuel : Nat) : Option (List (List String)) × Bool :=
  if githubRepository ≠ "" then (some [[githubRepository]], false)
  else
    match getOrganisationRepositories pages repositoriesPerJob fuel with
    | none => (none, true)
    | some (batches, _) => (some batches, true)

/-! ### Claims about polling, the driver and the coordinator -/

theorem awaitExportAux_nonexported (status : Nat → Except String String)
    (h : ∀ k, ∃ s, status k = Except.ok s ∧ s ≠ "exported") :
    ∀ fuel polls, awaitExportAux status fuel polls = .outOfFuel (polls + fuel) := by
  intro fuel
  induction fuel with
  | zero => intro polls; rfl
  | succ fuel ih =>
    intro polls
    obtain ⟨s, hs, hne⟩ := h polls
    have hstep : awaitExportAux status (fuel + 1) polls =
        awaitExportAux status fuel (polls + 1) := by
      unfold awaitExportAux
      rw [hs]
      simp only [if_neg hne]
      cases fuel
      all_goals rfl
    rw [hstep, ih (polls + 1)]
    congr 1
    omega

/-- Counterexample to C1 as stated: when every poll reports the provider
failure state `'failed'`, the loop keeps polling (still unsettled after 10
polls) instead of stopping; with `'failed', 'failed', 'exported'` it polls
straight past the failure reports and succeeds on the third poll; and the
whole batch with an always-`'failed'` provider never aborts with an error —
it simply never settles. -/
theorem awaitExport_failed_not_fatal_cex :
    awaitExport (fun _ => Except.ok "failed") 10 = .outOfFuel 10 ∧
    awaitExport (fun k => if k < 2 then Except.ok "failed" else Except.ok "exported") 10 =
      .exported 3 ∧
    backup ⟨Except.ok 1, fun _ => Except.ok "failed", Except.ok "u",
      fun _ => .response 200 .success, Except.ok ()⟩ "org" "dir" 0 "T" 10 = none :=
  ⟨by decide, by decide, by decide⟩

/-- C1 (amended): the polling loop stops only when the reported state is
`'exported'`; every other state — including the provider failure state
`'failed'` — just causes another poll, for any number of polls.  No
reported failure state is fatal and the batch is never aborted because of
one (only a thrown status request aborts the batch). -/
theorem awaitExport_only_exported_stops (status : Nat → Except String String) (fuel : Nat)
    (h : ∀ k, ∃ s, status k = Except.ok s ∧ s ≠ "exported") :
    awaitExport status fuel = .outOfFuel fuel := by
  have haux := awaitExportAux_nonexported status h fuel 0
  simpa [awaitExport] using haux

/-- Closed witness for the amended C1: a provider stuck on `'failed'` is
still being polled after 4 polls. -/
theorem awaitExport_only_exported_stops_witness :
    (∀ k : Nat, ∃ s, (fun _ => (Except.ok "failed" : Except String String)) k =
        Except.ok s ∧ s ≠ "exported") ∧
    awaitExport (fun _ => Except.ok "failed") 4 = .outOfFuel 4 :=
  ⟨fun _ => ⟨"failed", rfl, by decide⟩,
    awaitExport_only_exported_stops (fun _ => Except.ok "failed") 4
      (fun _ => ⟨"failed", rfl, by decide⟩)⟩

/-- A batch environment in which everything succeeds except the final
`deleteArchiveForOrg` call. -/
def cleanupFailEnv : BackupEnv :=
  ⟨Except.ok 1, fun _ => Except.ok "exported", Except.ok "u",
    fun _ => .response 200 .success, Except.error "cleanup failed"⟩

/-- Counterexample to C2 as stated: with a successful download but a failed
remote-archive deletion, the batch promise rejects with the deletion error;
the batch result is not a success and the archive file path is not
returned. -/
theorem backup_cleanup_failure_cex :
    backup cleanupFailEnv "org" "dir" 0 "T" 5 = some (Except.error "cleanup failed") ∧
    backup cleanupFailEnv "org" "dir" 0 "T" 5 ≠
      some (Except.ok (backupFilename "dir" "org" 0 "T")) :=
  ⟨by decide, by decide⟩

/-- C2 (amended): there is no try/catch around `deleteArchiveForOrg`, so
when it fails after a successful download the error propagates: the
batch's promise rejects with exactly that error, the batch is recorded as
failed, and the archive file path is not returned (the file itself has
already been written to disk). -/
theorem backup_cleanup_failure_propagates (env : BackupEnv)
    (organization directory : String) (index : Nat) (timestamp : String)
    (fuel mid polls : Nat) (url msg : String)
    (hstart : env.start = Except.ok mid)
    (hpoll : awaitExport env.status fuel = .exported polls)
    (hurl : env.archiveUrl = Except.ok url)
    (hdl : (downloadFile env.download url
        (backupFilename directory organization index timestamp) index).result = .complete)
    (hdel : env.deleteArchive = Except.error msg) :
    backup env organization directory index timestamp fuel = some (Except.error msg) := by
  simp [backup, hstart, hpoll, hurl, hdl, hdel, downloadThrowMsg]

/-- Closed witness for the amended C2. -/
theorem backup_cleanup_failure_propagates_witness :
    cleanupFailEnv.start = Except.ok 1 ∧
    awaitExport cleanupFailEnv.status 5 = .exported 1 ∧
    cleanupFailEnv.archiveUrl = Except.ok "u" ∧
    (downloadFile cleanupFailEnv.download "u" (backupFilename "dir" "org" 0 "T") 0).result =
      .complete ∧
    cleanupFailEnv.deleteArchive = Except.error "cleanup failed" ∧
    backup cleanupFailEnv "org" "dir" 0 "T" 5 = some (Except.error "cleanup failed") :=
  ⟨by decide, by decide, by decide, by decide, by decide,
    backup_cleanup_failure_propagates cleanupFailEnv "org" "dir" 0 "T" 5 1 1 "u"
      "cleanup failed" (by decide) (by decide) (by decide) (by decide) (by decide)⟩

theorem aggregateResults_spec (results : List (Except String String)) :
    (aggregateResults results).1 =
      results.filterMap (fun r => match r with | .ok f => some f | .error _ => none) ∧
    (aggregateResults results).2 =
      results.countP (fun r => match r with | .ok _ => false | .error _ => true) := by
  induction results with
  | nil => exact ⟨rfl, rfl⟩
  | cons r rest ih =>
    cases r with
    | ok f => simp [aggregateResults, List.filterMap_cons, List.countP_cons, ih.1, ih.2]
    | error e => simp [aggregateResults, List.filterMap_cons, List.countP_cons, ih.1, ih.2]

/-- C5: the coordinator waits for every batch to settle and one rejection
neither cancels siblings nor escapes as an unhandled error.  Concretely,
with batch 2 of 3 rejected (e.g. failing at the polling step) and batches
1 and 3 fulfilled, `run` reports exactly the two produced files in order,
failure count 1, and the run marked failed.  In general a settled run is
marked failed exactly when its failure count is positive, the files being
the fulfilled results in order and the failure count the number of
rejections. -/
theorem run_partial_failure (organization directory : String)
    (timestamps : Nat → String) (fuel : Nat) :
    (∀ (env1 env2 env3 : BackupEnv) (f1 f3 e : String),
      backup env1 organization directory 0 (timestamps 0) fuel = some (Except.ok f1) →
      backup env2 organization directory 1 (timestamps 1) fuel = some (Except.error e) →
      backup env3 organization directory 2 (timestamps 2) fuel = some (Except.ok f3) →
      run [env1, env2, env3] organization directory timestamps fuel =
        some ⟨[f1, f3], directory, 1, true⟩) ∧
    (∀ (envs : List BackupEnv) (r : RunResult),
      run envs organization directory timestamps fuel = some r →
      (r.failed = true ↔ 0 < r.failures) ∧
      ∃ results,
        collectSettled (runBackups organization directory timestamps fuel envs 0) =
          some results ∧
        r.backupFiles = results.filterMap
          (fun x => match x with | .ok f => some f | .error _ => none) ∧
        r.failures = results.countP
          (fun x => match x with | .ok _ => false | .error _ => true)) := by
  constructor
  · intro env1 env2 env3 f1 f3 e h1 h2 h3
    simp [run, runBackups, h1, h2, h3, collectSettled, aggregateResults]
  · intro envs r hr
    unfold run at hr
    cases hc : collectSettled (runBackups organization directory timestamps fuel envs 0) with
    | none => rw [hc] at hr; simp at hr
    | some results =>
      rw [hc] at hr
      simp only [Option.some.injEq] at hr
      subst hr
      refine ⟨by simp [decide_eq_true_eq], results, rfl,
        (aggregateResults_spec results).1, (aggregateResults_spec results).2⟩

/-- A batch environment in which every provider call succeeds. -/
def okEnv : BackupEnv :=
  ⟨Except.ok 1, fun _ => Except.ok "exported", Except.ok "u",
    fun _ => .response 200 .success, Except.ok ()⟩

/-- A batch environment whose status request fails at the first poll: the
batch fails at the polling step. -/
def pollFailEnv : BackupEnv :=
  ⟨Except.ok 2, fun _ => Except.error "ECONNREFUSED", Except.ok "u",
    fun _ => .response 200 .success, Except.ok ()⟩

/-- Closed witness for C5: batch 2 of 3 fails at the polling step; the
files of batches 1 and 3 are still produced and reported, the failure
count is 1, and the run is marked failed. -/
theorem run_partial_failure_witness :
    backup okEnv "org" "dir" 0 "T" 3 = some (Except.ok (backupFilename "dir" "org" 0 "T")) ∧
    backup pollFailEnv "org" "dir" 1 "T" 3 = some (Except.error "ECONNREFUSED") ∧
    backup okEnv "org" "dir" 2 "T" 3 = some (Except.ok (backupFilename "dir" "org" 2 "T")) ∧
    run [okEnv, pollFailEnv, okEnv] "org" "dir" (fun _ => "T") 3 =
      some ⟨[backupFilename "dir" "org" 0 "T", backupFilename "dir" "org" 2 "T"],
        "dir", 1, true⟩ :=
  ⟨by decide, by decide, by decide,
    (run_partial_failure "org" "dir" (fun _ => "T") 3).1 okEnv pollFailEnv okEnv
      (backupFilename "dir" "org" 0 "T") (backupFilename "dir" "org" 2 "T") "ECONNREFUSED"
      (by decide) (by decide) (by decide)⟩

/-- C8: when an explicit repository is given (a non-empty string), exactly
one batch is built, containing exactly that repository, and the listing
call is never invoked — for every page oracle, batch size and fuel. -/
theorem run_single_repository (githubRepository : String) (pages : Nat → List String)
    (repositoriesPerJob fuel : Nat) (h : githubRepository ≠ "") :
    selectBatches githubRepository pages repositoriesPerJob fuel =
      (some [[githubRepository]], false) := by
  simp [selectBatches, h]

/-- Closed witness for C8. -/
theorem run_single_repository_witness :
    ("org/repo" : String) ≠ "" ∧
    selectBatches "org/repo" (fun _ => ["a", "b"]) 50 3 = (some [["org/repo"]], false) :=
  ⟨by decide, run_single_repository "org/repo" (fun _ => ["a", "b"]) 50 3 (by decide)⟩

end GithubBackup
